import Mathlib

/-!
Shallow embedding of `apply_spec` from
`src/message_ix_models/model/material/build.py`.

The scenario store, `Code`, `ScenarioInfo`, `strip_par_data`, `add_par_data`,
`maybe_check_out` and the ixmp platform operations are collaborators that are
not part of the source under verification; they are modelled from the
specification's data-model and interface contracts (spec.md sections 3 and 6).
`applySpec` itself mirrors `apply_spec` statement by statement.
-/

namespace SpecApply

/-- A `Code` value object carrying an identifier and a descriptive name.
Modelled from the spec: `message_data.tools.Code` is not under `src/`; the
spec describes it as a value object `\x7bid: string, name: string\x7d`. -/
structure Code where
  id : String
  name : String
deriving DecidableEq, Repr

/-- An element of a specification entry: either a bare identifier (string) or
a `Code` value (spec.md section 3). -/
inductive Elem where
  | str : String → Elem
  | code : Code → Elem
deriving DecidableEq, Repr

/-- The effective identifier of an element, as extracted by the add step of
`apply_spec` (line 121: `element.id if isinstance(element, Code) else element`). -/
def Elem.effId : Elem → String
  | .str s => s
  | .code c => c.id

/-- Modelled from the spec: `ScenarioInfo` (from `message_data.tools`, not
under `src/`) exposes `.set`, a mapping from set name to an ordered sequence
of elements, yielding the empty sequence for unmentioned names. -/
structure ScenarioInfo where
  set : List (String × List Elem)
deriving DecidableEq, Repr

/-- Lookup of a set name in the first matching entry of an association list
of set contents; names that are absent yield the empty list. -/
def lookupSet : List (String × List Elem) → String → List Elem
  | [], _ => []
  | (m, l) :: rest, n => if m = n then l else lookupSet rest n

/-- The sequence a `ScenarioInfo` associates with a set name (`info.set[name]`,
defaulting to empty). -/
def ScenarioInfo.setOf (info : ScenarioInfo) (n : String) : List Elem :=
  lookupSet info.set n

/-- A specification: the mapping with exactly the keys `require`, `remove`
and `add` passed to `apply_spec` (spec.md section 3). -/
structure Spec where
  require : ScenarioInfo
  remove : ScenarioInfo
  add : ScenarioInfo
deriving DecidableEq, Repr

/-- A parameter-table row, keyed by the structural elements it references:
`refs` lists (set name, element identifier) pairs (spec.md section 3,
"table of rows keyed by the structural elements they reference"). -/
structure ParRow where
  par_name : String
  refs : List (String × String)
deriving DecidableEq, Repr

/-- Modelled from the spec: the mutable Scenario Store (spec.md sections 3
and 6) — per-set ordered contents, parameter rows, the platform-level unit
registry, checkout state, cached solve results, and committed messages. -/
structure Scenario where
  sets : List (String × List Elem)
  pars : List ParRow
  units : List (String × String)
  checked_out : Bool
  has_solution : Bool
  commits : List String
deriving DecidableEq, Repr

/-- The store's known set names, in order (`scenario.set_list()`). -/
def Scenario.set_list (s : Scenario) : List String := s.sets.map Prod.fst

/-- Current elements of a named set (`scenario.set(set_name)`). -/
def Scenario.getSet (s : Scenario) (n : String) : List Elem :=
  lookupSet s.sets n

/-- Append the element with identifier `x` to every entry of the association
list named `n` (helper for `Scenario.add_set`). -/
def updateSet : List (String × List Elem) → String → String → List (String × List Elem)
  | [], _, _ => []
  | (m, l) :: rest, n, x =>
    if m = n then (m, l ++ [Elem.str x]) :: updateSet rest n x
    else (m, l) :: updateSet rest n x

/-- Modelled from the spec: `scenario.add_set(set_name, id)` appends an
element to the named set ("append element(s) to a set", spec.md section 3). -/
def Scenario.add_set (s : Scenario) (n : String) (x : String) : Scenario :=
  { s with sets := updateSet s.sets n x }

/-- Modelled from the spec: platform unit registration
(`scenario.platform.add_unit(id, comment)`) adds an entry (id, comment) to
the platform-level unit registry. -/
def Scenario.add_unit (s : Scenario) (uid comment : String) : Scenario :=
  { s with units := s.units ++ [(uid, comment)] }

/-- Modelled from the spec: `scenario.remove_solution()` discards cached
solve results, raising (`ValueError`) when no solution is present. -/
def Scenario.remove_solution (s : Scenario) : Except Unit Scenario :=
  if s.has_solution then .ok { s with has_solution := false } else .error ()

/-- Lines 62-65 of build.py: `try: scenario.remove_solution() except
ValueError: pass` — absence of a solution is tolerated as a no-op. -/
def discardSolution (s : Scenario) : Scenario :=
  match s.remove_solution with
  | .ok s' => s'
  | .error _ => s

/-- Modelled from the spec: `ixmp.utils.maybe_check_out` checks the store
out for editing, a no-op if it is already checked out. -/
def maybe_check_out (s : Scenario) : Scenario :=
  { s with checked_out := true }

/-- Modelled from the spec: `scenario.commit(message)` durably persists the
batch with the message and ends the transaction. -/
def Scenario.commit (s : Scenario) (msg : String) : Scenario :=
  { s with commits := s.commits ++ [msg], checked_out := false }

/-- Whether a parameter row references element `e` in set `n`'s structural
role. -/
def refMatch (n e : String) (r : ParRow) : Bool :=
  decide ((n, e) ∈ r.refs)

/-- Record stripped rows in the removed-data ledger under set name `n`,
accumulating into an existing entry or creating a new one (spec.md section 3,
"accumulating mapping from set name to the list of parameter rows stripped"). -/
def addDump (dump : List (String × List ParRow)) (n : String) (rows : List ParRow) :
    List (String × List ParRow) :=
  if (dump.lookup n).isSome then
    dump.map (fun p => if p.1 = n then (p.1, p.2 ++ rows) else p)
  else dump ++ [(n, rows)]

/-- Modelled from the spec: `message_data.tools.strip_par_data` (not under
`src/`) finds all parameter rows referencing the element in the set's
structural role, records them in the ledger, and deletes them from the store
— the deletion itself being suppressed when `dry_run` is true (spec.md
section 4.1 step 4). -/
def strip_par_data (scen : Scenario) (n : String) (e : Elem) (dry_run : Bool)
    (dump : List (String × List ParRow)) : Scenario × List (String × List ParRow) :=
  let removed := scen.pars.filter (fun r => refMatch n e.effId r)
  let scen' :=
    if dry_run then scen
    else { scen with pars := scen.pars.filter (fun r => !refMatch n e.effId r) }
  (scen', addDump dump n removed)

/-- Modelled from the spec: `message_data.tools.add_par_data` merges rows
into the store's parameter tables; suppressed under `dry_run`. -/
def add_par_data (s : Scenario) (rows : List ParRow) (dry_run : Bool) : Scenario :=
  if dry_run then s else { s with pars := s.pars ++ rows }

/-- Log-line vocabulary of `apply_spec`, one constructor per logging call in
build.py. -/
inductive LogLine where
  | setHeader : String → LogLine
  | nElements : Nat → LogLine
  | notFound : Elem → LogLine
  | checkRequired : Nat → LogLine
  | skipStrip : LogLine
  | skipRemove : Elem → LogLine
  | removeMsg : Elem → LogLine
  | addCount : Nat → LogLine
  | addList : List Elem → LogLine
  | sep : LogLine
  | nRemoved : Nat → LogLine
  | addUnit : String → LogLine
  | commitLine : LogLine
deriving DecidableEq, Repr

/-- Logging levels used by `apply_spec` (build.py lines 57-59 set the level
to ERROR when `quiet` and DEBUG otherwise). -/
inductive LogLevel where
  | debug : LogLevel
  | info : LogLevel
  | error : LogLevel
deriving DecidableEq, Repr

/-- Emit a log line: under `quiet` only ERROR-level lines are recorded. -/
def emit (quiet : Bool) (lvl : LogLevel) (line : LogLine) (lg : List LogLine) :
    List LogLine :=
  if quiet = true ∧ lvl ≠ LogLevel.error then lg else lg ++ [line]

/-- The keyword options of `apply_spec` (build.py lines 34-46). -/
structure Options where
  dry_run : Bool
  fast : Bool
  quiet : Bool
  message : Option String
deriving DecidableEq, Repr

/-- The condition deliberately raised by `apply_spec`: the bare `ValueError`
of build.py line 92. It has no payload. -/
inductive ApplyError where
  | valueError : ApplyError
deriving DecidableEq, Repr

/-- Mutable state threaded through the per-set loop of `apply_spec`: the
scenario, the removed-data ledger (`dump`), and the emitted log. -/
structure LoopState where
  scen : Scenario
  dump : List (String × List ParRow)
  log : List LogLine
deriving DecidableEq, Repr

/-- Build.py line 72: total number of elements the spec mentions for a set
name, summed over the `require`, `remove` and `add` entries. -/
def totalMention (spec : Spec) (n : String) : Nat :=
  (spec.require.setOf n).length + (spec.remove.setOf n).length +
    (spec.add.setOf n).length

/-- Build.py lines 89-92: scan the required elements in order and return the
first one absent from the base contents, if any. -/
def findMissing (req base : List Elem) : Option Elem :=
  match req with
  | [] => none
  | e :: rest => if e ∈ base then findMissing rest base else some e

/-- Build.py lines 93-94: log the required-element count when nonzero. -/
def requireLog (spec : Spec) (opts : Options) (n : String) (lg : List LogLine) :
    List LogLine :=
  if (spec.require.setOf n).length ≠ 0 then
    emit opts.quiet .info (.checkRequired (spec.require.setOf n).length) lg
  else lg

/-- Build.py lines 101-113: removal of one element's parameter data (the
loop body, including the dead inner `fast` check of lines 103-104). -/
def stripOne (opts : Options) (n : String) (st : LoopState) (e : Elem) : LoopState :=
  if opts.fast then
    ⟨st.scen, st.dump, emit opts.quiet .info (.skipRemove e) st.log⟩
  else
    let p := strip_par_data st.scen n e opts.dry_run st.dump
    ⟨p.1, p.2, emit opts.quiet .info (.removeMsg e) st.log⟩

/-- Build.py lines 96-113: the parameter-data-stripping step, skipped
entirely under `fast`. -/
def stripStep (spec : Spec) (opts : Options) (n : String) (st : LoopState) : LoopState :=
  if opts.fast then
    ⟨st.scen, st.dump, emit opts.quiet .info .skipStrip st.log⟩
  else (spec.remove.setOf n).foldl (stripOne opts n) st

/-- Build.py lines 117-122: append each added element's effective identifier
to the set. -/
def foldAdds (L : List Elem) (n : String) (s : Scenario) : Scenario :=
  L.foldl (fun sc e => sc.add_set n e.effId) s

/-- Build.py lines 115-128: the add step and its logging, followed by the
per-set separator line. -/
def addStep (spec : Spec) (opts : Options) (n : String) (st : LoopState) : LoopState :=
  let scen := if opts.dry_run then st.scen else foldAdds (spec.add.setOf n) n st.scen
  let lg :=
    if (spec.add.setOf n).length ≠ 0 then
      emit opts.quiet .debug (.addList (spec.add.setOf n))
        (emit opts.quiet .info (.addCount (spec.add.setOf n).length) st.log)
    else st.log
  ⟨scen, st.dump, emit opts.quiet .info .sep lg⟩

/-- Build.py lines 70-128: the body of the per-set loop for one set name.
`Except.error` is the `raise ValueError` of line 92. -/
def procSet (spec : Spec) (opts : Options) (n : String) (st : LoopState) :
    Except LoopState LoopState :=
  if totalMention spec n = 0 then .ok st
  else
    let lg := emit opts.quiet .info (.nElements (st.scen.getSet n).length)
      (emit opts.quiet .info (.setHeader n) st.log)
    match findMissing (spec.require.setOf n) (st.scen.getSet n) with
    | some e => .error ⟨st.scen, st.dump, emit opts.quiet .error (.notFound e) lg⟩
    | none =>
      .ok (addStep spec opts n (stripStep spec opts n ⟨st.scen, st.dump, requireLog spec opts n lg⟩))

/-- The per-set loop of `apply_spec`: process set names in order, stopping
at the first raised `ValueError`. -/
def runSets (spec : Spec) (opts : Options) :
    List String → LoopState → LoopState × Option ApplyError
  | [], st => (st, none)
  | n :: rest, st =>
    match procSet spec opts n st with
    | .error st' => (st', some .valueError)
    | .ok st' => runSets spec opts rest st'

/-- Total number of parameter rows recorded in the removed-data ledger
(build.py line 130). -/
def sumDump (dump : List (String × List ParRow)) : Nat :=
  (dump.map (fun p => p.2.length)).sum

/-- Promotion of a unit entry to a `Code` (build.py line 135: bare strings
become a `Code` whose name equals its id). -/
def promoteUnit : Elem → Code
  | .str u => ⟨u, u⟩
  | .code c => c

/-- Build.py lines 135-137: promote one unit entry and register it (id plus
the code's name as comment) with the platform. -/
def unitStep1 (opts : Options) (p : Scenario × List LogLine) (u : Elem) :
    Scenario × List LogLine :=
  let c := promoteUnit u
  (p.1.add_unit c.id c.name, emit opts.quiet .info (.addUnit c.id) p.2)

/-- Build.py lines 133-137: register every entry of `spec.add` for the
reserved set name "unit" with the platform's unit registry. -/
def unitsStep (spec : Spec) (opts : Options) (st : Scenario × List LogLine) :
    Scenario × List LogLine :=
  (spec.add.setOf "unit").foldl (unitStep1 opts) st

/-- The optional data callback of `apply_spec`, in its dict-returning form:
given the scenario and the `dry_run` flag it returns rows to merge. -/
def DataFn : Type := Scenario → Bool → List ParRow

/-- Build.py lines 139-143: invoke the data callback and merge a non-empty
result via `add_par_data`. -/
def dataStep (data : Option DataFn) (opts : Options) (s : Scenario) : Scenario :=
  match data with
  | none => s
  | some f =>
    let r := f s opts.dry_run
    if r.isEmpty then s else add_par_data s r opts.dry_run

/-- The default commit message of build.py line 148
(`f"\x7b__name__\x7d.apply_spec()"`). -/
def defaultMessage : String := "message_ix_models.model.material.build.apply_spec()"

/-- The observable outcome of one `apply_spec` call: final store state,
removed-data ledger, log, and the propagated condition if one was raised. -/
structure ApplyResult where
  scen : Scenario
  dump : List (String × List ParRow)
  log : List LogLine
  err : Option ApplyError
deriving DecidableEq, Repr

/-- Build.py lines 68-148: everything after the initial solution-discard and
checkout (the per-set loop, the removed-count report, unit registration, the
data callback, and the final commit). -/
def applyBody (scen : Scenario) (spec : Spec) (data : Option DataFn) (opts : Options) :
    ApplyResult :=
  let p := runSets spec opts scen.set_list ⟨scen, [], []⟩
  match p.2 with
  | some e => ⟨p.1.scen, p.1.dump, p.1.log, some e⟩
  | none =>
    let lg := emit opts.quiet .info (.nRemoved (sumDump p.1.dump)) p.1.log
    let q := unitsStep spec opts (p.1.scen, lg)
    let scen2 := dataStep data opts q.1
    let lg2 := emit opts.quiet .info .commitLine q.2
    ⟨if opts.dry_run then scen2 else scen2.commit (opts.message.getD defaultMessage),
      p.1.dump, lg2, none⟩

/-- Build.py lines 61-66: when not `dry_run`, discard any existing solution
(tolerating its absence) and check the store out for editing. -/
def prep (scen : Scenario) (opts : Options) : Scenario :=
  if opts.dry_run then scen else maybe_check_out (discardSolution scen)

/-- The full `apply_spec` procedure of build.py. -/
def applySpec (scen : Scenario) (spec : Spec) (data : Option DataFn) (opts : Options) :
    ApplyResult :=
  applyBody (prep scen opts) spec data opts

/-- The fields of the store that the per-set loop never touches: the unit
registry, the commit history, the checkout flag and the solution flag. -/
def Scenario.core (s : Scenario) : List (String × String) × List String × Bool × Bool :=
  (s.units, s.commits, s.checked_out, s.has_solution)

/-- The unit-registry entries produced by one `apply_spec` call: one
(id, comment) pair per entry of `spec.add` for the reserved name "unit". -/
def unitsList (spec : Spec) : List (String × String) :=
  (spec.add.setOf "unit").map (fun u => ((promoteUnit u).id, (promoteUnit u).name))

/-- Erase a set name from a `ScenarioInfo` (used to state that `apply_spec`
ignores a given name). -/
def ScenarioInfo.dropName (info : ScenarioInfo) (X : String) : ScenarioInfo :=
  ⟨info.set.filter (fun p => !decide (p.1 = X))⟩

/-- Erase a set name from all three entries of a specification. -/
def Spec.dropName (spec : Spec) (X : String) : Spec :=
  ⟨spec.require.dropName X, spec.remove.dropName X, spec.add.dropName X⟩

/-- Default options of `apply_spec`: no dry run, not fast, not quiet. -/
def opts_plain : Options := ⟨false, false, false, none⟩

/-- Options with `dry_run=True`. -/
def opts_dry : Options := ⟨true, false, false, none⟩

/-- Options with `fast=True`. -/
def opts_fast : Options := ⟨false, true, false, none⟩

/-- A store with one set `technology = ["coal_ppl"]` and nothing else. -/
def scenTech : Scenario := ⟨[("technology", [.str "coal_ppl"])], [], [], false, false, []⟩

/-- The store of `scenTech` but carrying a cached solution. -/
def scenTechSolved : Scenario :=
  ⟨[("technology", [.str "coal_ppl"])], [], [], false, true, []⟩

/-- A store whose `technology` set is empty. -/
def scenEmptyTech : Scenario := ⟨[("technology", [])], [], [], false, false, []⟩

/-- A store with a `commodity` set (listed first) and an empty `technology`
set (listed second). -/
def scenTwoSets : Scenario :=
  ⟨[("commodity", [.str "water"]), ("technology", [])], [], [], false, false, []⟩

/-- A parameter row referencing the element "old" of set "technology". -/
def rowOld : ParRow := ⟨"inv_cost", [("technology", "old"), ("node", "R11_NAM")]⟩

/-- A parameter row referencing the element "coal_ppl" of set "technology". -/
def rowCoal : ParRow := ⟨"inv_cost", [("technology", "coal_ppl")]⟩

/-- A store with `technology = ["coal_ppl", "old"]` and two parameter rows. -/
def scenWithPar : Scenario :=
  ⟨[("technology", [.str "coal_ppl", .str "old"])], [rowOld, rowCoal], [], false, false, []⟩

/-- The empty specification. -/
def specEmpty : Spec := ⟨⟨[]⟩, ⟨[]⟩, ⟨[]⟩⟩

/-- A specification that only adds `technology` "gas_ppl". -/
def specAddGas : Spec := ⟨⟨[]⟩, ⟨[]⟩, ⟨[("technology", [.str "gas_ppl"])]⟩⟩

/-- A specification that only removes `technology` "old". -/
def specRemoveOld : Spec := ⟨⟨[]⟩, ⟨[("technology", [.str "old"])]⟩, ⟨[]⟩⟩

/-- A specification adding the bare-string unit "kg_CO2". -/
def specUnitStr : Spec := ⟨⟨[]⟩, ⟨[]⟩, ⟨[("unit", [.str "kg_CO2"])]⟩⟩

/-- A specification adding the unit Code kg_CO2 / "kilograms of CO2". -/
def specUnitCode : Spec :=
  ⟨⟨[]⟩, ⟨[]⟩, ⟨[("unit", [.code ⟨"kg_CO2", "kilograms of CO2"⟩])]⟩⟩

/-- A specification requiring a `technology` element "nuclear_g". -/
def specReqMissing : Spec := ⟨⟨[("technology", [.str "nuclear_g"])]⟩, ⟨[]⟩, ⟨[]⟩⟩

/-- A specification requiring `technology` "coal_ppl" and adding a unit. -/
def specReqCoalUnit : Spec :=
  ⟨⟨[("technology", [.str "coal_ppl"])]⟩, ⟨[]⟩, ⟨[("unit", [.str "kg_CO2"])]⟩⟩

/-- A specification adding a `commodity` and requiring a `technology` element. -/
def specAddReq : Spec :=
  ⟨⟨[("technology", [.str "coal_ppl"])]⟩, ⟨[]⟩, ⟨[("commodity", [.str "salt"])]⟩⟩

/-- A store whose only set is an empty `node` set. -/
def scenEmptyNode : Scenario := ⟨[("node", [])], [], [], false, false, []⟩

/-- A specification requiring a `node` element "e2". -/
def specReqNode : Spec := ⟨⟨[("node", [.str "e2"])]⟩, ⟨[]⟩, ⟨[]⟩⟩

/-- A specification requiring a `technology` element "e1". -/
def specReqE1 : Spec := ⟨⟨[("technology", [.str "e1"])]⟩, ⟨[]⟩, ⟨[]⟩⟩

/-- A specification whose only entry is a required element under a set name
("foo_set") unknown to the stores used here. -/
def specUnknownReq : Spec := ⟨⟨[("foo_set", [.str "ghost"])]⟩, ⟨[]⟩, ⟨[]⟩⟩

@[simp] theorem effId_str (s : String) : Elem.effId (.str s) = s := rfl

@[simp] theorem effId_code (c : Code) : Elem.effId (.code c) = c.id := rfl

@[simp] theorem lookupSet_nil (n : String) : lookupSet [] n = [] := rfl

theorem lookupSet_cons (m : String) (l : List Elem) (rest : List (String × List Elem))
    (n : String) :
    lookupSet ((m, l) :: rest) n = if m = n then l else lookupSet rest n := rfl

@[simp] theorem map_fst_updateSet (sets : List (String × List Elem)) (n x : String) :
    (updateSet sets n x).map Prod.fst = sets.map Prod.fst := by
  induction sets with
  | nil => rfl
  | cons p rest ih =>
    obtain ⟨m, l⟩ := p
    by_cases h : m = n <;> simp [updateSet, h, ih]

theorem lookupSet_updateSet_self (sets : List (String × List Elem)) (n x : String) :
    lookupSet (updateSet sets n x) n =
      if n ∈ sets.map Prod.fst then lookupSet sets n ++ [Elem.str x] else [] := by
  induction sets with
  | nil => simp [updateSet]
  | cons p rest ih =>
    obtain ⟨m, l⟩ := p
    by_cases h : m = n
    · subst h
      simp [updateSet, lookupSet_cons]
    · have hnm : ¬n = m := fun hh => h hh.symm
      by_cases hmem : n ∈ rest.map Prod.fst <;>
        simp [updateSet, h, lookupSet_cons, ih, hnm, hmem, List.mem_cons]

theorem lookupSet_updateSet_ne (sets : List (String × List Elem)) (n x m : String)
    (h : m ≠ n) :
    lookupSet (updateSet sets n x) m = lookupSet sets m := by
  induction sets with
  | nil => rfl
  | cons p rest ih =>
    obtain ⟨k, l⟩ := p
    by_cases hk : k = n
    · subst hk
      have hkm : ¬k = m := fun hkm => h hkm.symm
      simp [updateSet, lookupSet_cons, hkm, ih]
    · simp [updateSet, hk, lookupSet_cons, ih]

@[simp] theorem add_set_pars (s : Scenario) (n x : String) :
    (s.add_set n x).pars = s.pars := rfl

@[simp] theorem add_set_core (s : Scenario) (n x : String) :
    (s.add_set n x).core = s.core := rfl

@[simp] theorem add_set_set_list (s : Scenario) (n x : String) :
    (s.add_set n x).set_list = s.set_list := by
  simp [Scenario.add_set, Scenario.set_list]

theorem getSet_add_set_self (s : Scenario) (n x : String) :
    (s.add_set n x).getSet n =
      if n ∈ s.set_list then s.getSet n ++ [Elem.str x] else [] := by
  simp [Scenario.add_set, Scenario.getSet, Scenario.set_list,
    lookupSet_updateSet_self]

theorem getSet_add_set_ne (s : Scenario) (n x m : String) (h : m ≠ n) :
    (s.add_set n x).getSet m = s.getSet m := by
  simp [Scenario.add_set, Scenario.getSet, lookupSet_updateSet_ne _ _ _ _ h]

@[simp] theorem emit_not_quiet (lvl : LogLevel) (line : LogLine) (lg : List LogLine) :
    emit false lvl line lg = lg ++ [line] := by
  simp [emit]

@[simp] theorem emit_error_level (q : Bool) (line : LogLine) (lg : List LogLine) :
    emit q .error line lg = lg ++ [line] := by
  simp [emit]

theorem mem_emit_of_mem (q : Bool) (lvl : LogLevel) (line a : LogLine)
    (lg : List LogLine) (h : a ∈ lg) : a ∈ emit q lvl line lg := by
  unfold emit
  split
  · exact h
  · exact List.mem_append_left _ h

theorem mem_requireLog_of_mem (spec : Spec) (opts : Options) (n : String)
    (a : LogLine) (lg : List LogLine) (h : a ∈ lg) :
    a ∈ requireLog spec opts n lg := by
  unfold requireLog
  split
  · exact mem_emit_of_mem _ _ _ _ _ h
  · exact h

theorem findMissing_eq_none_iff (req base : List Elem) :
    findMissing req base = none ↔ ∀ e ∈ req, e ∈ base := by
  induction req with
  | nil => simp [findMissing]
  | cons e rest ih =>
    by_cases h : e ∈ base <;> simp [findMissing, h, ih]

theorem findMissing_eq_some (req base : List Elem) (e : Elem)
    (h : findMissing req base = some e) : e ∈ req ∧ e ∉ base := by
  induction req with
  | nil => simp [findMissing] at h
  | cons x rest ih =>
    by_cases hx : x ∈ base
    · simp only [findMissing, if_pos hx] at h
      obtain ⟨h1, h2⟩ := ih h
      exact ⟨List.mem_cons_of_mem _ h1, h2⟩
    · simp only [findMissing, if_neg hx, Option.some.injEq] at h
      subst h
      exact ⟨List.mem_cons_self _ _, hx⟩

theorem findMissing_ne_none_of_missing (req base : List Elem) (e : Elem)
    (he : e ∈ req) (hb : e ∉ base) : findMissing req base ≠ none := by
  intro h
  exact hb ((findMissing_eq_none_iff req base).1 h e he)

@[simp] theorem strip_par_data_sets (scen : Scenario) (n : String) (e : Elem)
    (dr : Bool) (dump : List (String × List ParRow)) :
    (strip_par_data scen n e dr dump).1.sets = scen.sets := by
  unfold strip_par_data
  split <;> rfl

@[simp] theorem strip_par_data_core (scen : Scenario) (n : String) (e : Elem)
    (dr : Bool) (dump : List (String × List ParRow)) :
    (strip_par_data scen n e dr dump).1.core = scen.core := by
  unfold strip_par_data
  split <;> rfl

theorem strip_par_data_dry (scen : Scenario) (n : String) (e : Elem)
    (dump : List (String × List ParRow)) :
    (strip_par_data scen n e true dump).1 = scen := rfl

theorem strip_par_data_pars (scen : Scenario) (n : String) (e : Elem)
    (dump : List (String × List ParRow)) :
    (strip_par_data scen n e false dump).1.pars =
      scen.pars.filter (fun r => !refMatch n e.effId r) := rfl

theorem strip_par_data_dump (scen : Scenario) (n : String) (e : Elem) (dr : Bool)
    (dump : List (String × List ParRow)) :
    (strip_par_data scen n e dr dump).2 =
      addDump dump n (scen.pars.filter (fun r => refMatch n e.effId r)) := by
  unfold strip_par_data
  split <;> rfl

theorem getSet_congr (s t : Scenario) (m : String) (h : s.sets = t.sets) :
    s.getSet m = t.getSet m := by
  simp [Scenario.getSet, h]

@[simp] theorem stripOne_sets (opts : Options) (n : String) (st : LoopState) (e : Elem) :
    (stripOne opts n st e).scen.sets = st.scen.sets := by
  unfold stripOne
  split
  · rfl
  · simp

@[simp] theorem stripOne_core (opts : Options) (n : String) (st : LoopState) (e : Elem) :
    (stripOne opts n st e).scen.core = st.scen.core := by
  unfold stripOne
  split
  · rfl
  · simp

theorem stripOne_dry (opts : Options) (n : String) (st : LoopState) (e : Elem)
    (h : opts.dry_run = true) : (stripOne opts n st e).scen = st.scen := by
  unfold stripOne
  split
  · rfl
  · simp [h, strip_par_data_dry]

theorem stripOne_fast (opts : Options) (n : String) (st : LoopState) (e : Elem)
    (h : opts.fast = true) :
    (stripOne opts n st e).scen = st.scen ∧ (stripOne opts n st e).dump = st.dump := by
  unfold stripOne
  rw [if_pos h]
  exact ⟨rfl, rfl⟩

theorem foldl_stripOne_sets (opts : Options) (n : String) (L : List Elem) :
    ∀ st : LoopState, (L.foldl (stripOne opts n) st).scen.sets = st.scen.sets := by
  induction L with
  | nil => intro st; rfl
  | cons e rest ih =>
    intro st
    rw [List.foldl_cons, ih]
    simp

theorem foldl_stripOne_core (opts : Options) (n : String) (L : List Elem) :
    ∀ st : LoopState, (L.foldl (stripOne opts n) st).scen.core = st.scen.core := by
  induction L with
  | nil => intro st; rfl
  | cons e rest ih =>
    intro st
    rw [List.foldl_cons, ih]
    simp

theorem foldl_stripOne_dry (opts : Options) (n : String) (L : List Elem)
    (h : opts.dry_run = true) :
    ∀ st : LoopState, (L.foldl (stripOne opts n) st).scen = st.scen := by
  induction L with
  | nil => intro st; rfl
  | cons e rest ih =>
    intro st
    rw [List.foldl_cons, ih, stripOne_dry opts n st e h]

theorem foldl_stripOne_fast (opts : Options) (n : String) (L : List Elem)
    (h : opts.fast = true) :
    ∀ st : LoopState, (L.foldl (stripOne opts n) st).scen = st.scen ∧
      (L.foldl (stripOne opts n) st).dump = st.dump := by
  induction L with
  | nil => intro st; exact ⟨rfl, rfl⟩
  | cons e rest ih =>
    intro st
    obtain ⟨h1, h2⟩ := stripOne_fast opts n st e h
    obtain ⟨h3, h4⟩ := ih (stripOne opts n st e)
    rw [List.foldl_cons]
    exact ⟨h3.trans h1, h4.trans h2⟩

@[simp] theorem stripStep_sets (spec : Spec) (opts : Options) (n : String)
    (st : LoopState) : (stripStep spec opts n st).scen.sets = st.scen.sets := by
  unfold stripStep
  split
  · rfl
  · exact foldl_stripOne_sets opts n _ st

@[simp] theorem stripStep_core (spec : Spec) (opts : Options) (n : String)
    (st : LoopState) : (stripStep spec opts n st).scen.core = st.scen.core := by
  unfold stripStep
  split
  · rfl
  · exact foldl_stripOne_core opts n _ st

theorem stripStep_dry (spec : Spec) (opts : Options) (n : String) (st : LoopState)
    (h : opts.dry_run = true) : (stripStep spec opts n st).scen = st.scen := by
  unfold stripStep
  split
  · rfl
  · exact foldl_stripOne_dry opts n _ h st

theorem stripStep_fast (spec : Spec) (opts : Options) (n : String) (st : LoopState)
    (h : opts.fast = true) :
    (stripStep spec opts n st).scen = st.scen ∧ (stripStep spec opts n st).dump = st.dump := by
  unfold stripStep
  rw [if_pos h]
  exact ⟨rfl, rfl⟩

theorem stripStep_no_remove (spec : Spec) (opts : Options) (n : String) (st : LoopState)
    (h : spec.remove.setOf n = []) :
    (stripStep spec opts n st).scen = st.scen ∧ (stripStep spec opts n st).dump = st.dump := by
  unfold stripStep
  split
  · exact ⟨rfl, rfl⟩
  · rw [h]
    exact ⟨rfl, rfl⟩

theorem stripStep_one (spec : Spec) (opts : Options) (n : String) (st : LoopState)
    (E : Elem) (hrm : spec.remove.setOf n = [E]) (hfast : opts.fast = false)
    (hdr : opts.dry_run = false) :
    (stripStep spec opts n st).scen.pars =
        st.scen.pars.filter (fun r => !refMatch n E.effId r) ∧
      (stripStep spec opts n st).dump =
        addDump st.dump n (st.scen.pars.filter (fun r => refMatch n E.effId r)) := by
  unfold stripStep
  rw [if_neg (by simp [hfast]), hrm]
  simp only [List.foldl_cons, List.foldl_nil]
  unfold stripOne
  rw [if_neg (by simp [hfast]), hdr]
  exact ⟨strip_par_data_pars st.scen n E st.dump,
    strip_par_data_dump st.scen n E false st.dump⟩

@[simp] theorem foldAdds_pars (n : String) (L : List Elem) :
    ∀ s : Scenario, (foldAdds L n s).pars = s.pars := by
  induction L with
  | nil => intro s; rfl
  | cons e rest ih =>
    intro s
    unfold foldAdds at ih ⊢
    rw [List.foldl_cons, ih]
    rfl

@[simp] theorem foldAdds_core (n : String) (L : List Elem) :
    ∀ s : Scenario, (foldAdds L n s).core = s.core := by
  induction L with
  | nil => intro s; rfl
  | cons e rest ih =>
    intro s
    unfold foldAdds at ih ⊢
    rw [List.foldl_cons, ih]
    rfl

@[simp] theorem foldAdds_set_list (n : String) (L : List Elem) :
    ∀ s : Scenario, (foldAdds L n s).set_list = s.set_list := by
  induction L with
  | nil => intro s; rfl
  | cons e rest ih =>
    intro s
    unfold foldAdds at ih ⊢
    rw [List.foldl_cons, ih]
    simp

theorem foldAdds_getSet_ne (n m : String) (h : m ≠ n) (L : List Elem) :
    ∀ s : Scenario, (foldAdds L n s).getSet m = s.getSet m := by
  induction L with
  | nil => intro s; rfl
  | cons e rest ih =>
    intro s
    unfold foldAdds at ih ⊢
    rw [List.foldl_cons, ih]
    exact getSet_add_set_ne s n _ m h

theorem foldAdds_getSet_self (n : String) (L : List Elem) :
    ∀ s : Scenario, n ∈ s.set_list →
      (foldAdds L n s).getSet n = s.getSet n ++ L.map (fun e => Elem.str e.effId) := by
  induction L with
  | nil => intro s _; simp [foldAdds]
  | cons e rest ih =>
    intro s hn
    unfold foldAdds at ih ⊢
    rw [List.foldl_cons, ih (s.add_set n e.effId) (by simp [hn]),
      getSet_add_set_self, if_pos hn, List.map_cons, List.append_assoc]
    rfl

@[simp] theorem addStep_dump (spec : Spec) (opts : Options) (n : String)
    (st : LoopState) : (addStep spec opts n st).dump = st.dump := rfl

@[simp] theorem addStep_pars (spec : Spec) (opts : Options) (n : String)
    (st : LoopState) : (addStep spec opts n st).scen.pars = st.scen.pars := by
  unfold addStep
  split <;> simp

@[simp] theorem addStep_core (spec : Spec) (opts : Options) (n : String)
    (st : LoopState) : (addStep spec opts n st).scen.core = st.scen.core := by
  unfold addStep
  split <;> simp

@[simp] theorem addStep_set_list (spec : Spec) (opts : Options) (n : String)
    (st : LoopState) : (addStep spec opts n st).scen.set_list = st.scen.set_list := by
  unfold addStep
  split <;> simp

theorem addStep_dry (spec : Spec) (opts : Options) (n : String) (st : LoopState)
    (h : opts.dry_run = true) : (addStep spec opts n st).scen = st.scen := by
  unfold addStep
  rw [if_pos h]

theorem addStep_getSet_ne (spec : Spec) (opts : Options) (n m : String)
    (st : LoopState) (h : m ≠ n) :
    (addStep spec opts n st).scen.getSet m = st.scen.getSet m := by
  unfold addStep
  split
  · rfl
  · exact foldAdds_getSet_ne n m h _ st.scen

theorem addStep_getSet_self (spec : Spec) (opts : Options) (n : String)
    (st : LoopState) (hn : n ∈ st.scen.set_list) (hdr : opts.dry_run = false) :
    (addStep spec opts n st).scen.getSet n =
      st.scen.getSet n ++ (spec.add.setOf n).map (fun e => Elem.str e.effId) := by
  unfold addStep
  rw [if_neg (by simp [hdr])]
  exact foldAdds_getSet_self n _ st.scen hn

theorem totalMention_eq_zero (spec : Spec) (n : String) (h : totalMention spec n = 0) :
    spec.require.setOf n = [] ∧ spec.remove.setOf n = [] ∧ spec.add.setOf n = [] := by
  unfold totalMention at h
  refine ⟨List.length_eq_zero.1 ?_, List.length_eq_zero.1 ?_, List.length_eq_zero.1 ?_⟩ <;>
    omega

theorem procSet_err_state (spec : Spec) (opts : Options) (n : String)
    (st st' : LoopState) (h : procSet spec opts n st = .error st') :
    st'.scen = st.scen ∧ st'.dump = st.dump ∧
      ∃ e, findMissing (spec.require.setOf n) (st.scen.getSet n) = some e ∧
        LogLine.notFound e ∈ st'.log ∧
        (opts.quiet = false → LogLine.setHeader n ∈ st'.log) := by
  by_cases h0 : totalMention spec n = 0
  · simp only [procSet, if_pos h0] at h
    exact Except.noConfusion h
  · simp only [procSet, if_neg h0] at h
    cases hm : findMissing (spec.require.setOf n) (st.scen.getSet n) with
    | none =>
      rw [hm] at h
      exact Except.noConfusion h
    | some e =>
      rw [hm] at h
      simp only [Except.error.injEq] at h
      subst h
      refine ⟨rfl, rfl, e, rfl, by simp, fun hq => ?_⟩
      simp [hq]

theorem procSet_err_of_missing (spec : Spec) (opts : Options) (n : String)
    (st : LoopState) (e : Elem)
    (hm : findMissing (spec.require.setOf n) (st.scen.getSet n) = some e) :
    ∃ st', procSet spec opts n st = .error st' := by
  have hreq : spec.require.setOf n ≠ [] := by
    intro hh
    rw [hh] at hm
    exact Option.noConfusion hm
  have h0 : totalMention spec n ≠ 0 := by
    intro h0
    exact hreq (totalMention_eq_zero spec n h0).1
  refine ⟨⟨st.scen, st.dump, emit opts.quiet .error (.notFound e)
    (emit opts.quiet .info (.nElements (st.scen.getSet n).length)
      (emit opts.quiet .info (.setHeader n) st.log))⟩, ?_⟩
  simp only [procSet, if_neg h0, hm]

theorem procSet_ok_elim (spec : Spec) (opts : Options) (n : String)
    (st st' : LoopState) (h : procSet spec opts n st = .ok st') :
    findMissing (spec.require.setOf n) (st.scen.getSet n) = none ∧
      ((totalMention spec n = 0 ∧ st' = st) ∨
        (totalMention spec n ≠ 0 ∧
          st' = addStep spec opts n (stripStep spec opts n
            ⟨st.scen, st.dump, requireLog spec opts n
              (emit opts.quiet .info (.nElements (st.scen.getSet n).length)
                (emit opts.quiet .info (.setHeader n) st.log))⟩))) := by
  by_cases h0 : totalMention spec n = 0
  · simp only [procSet, if_pos h0] at h
    simp only [Except.ok.injEq] at h
    refine ⟨?_, Or.inl ⟨h0, h.symm⟩⟩
    rw [(totalMention_eq_zero spec n h0).1]
    rfl
  · simp only [procSet, if_neg h0] at h
    cases hm : findMissing (spec.require.setOf n) (st.scen.getSet n) with
    | some e =>
      rw [hm] at h
      exact Except.noConfusion h
    | none =>
      rw [hm] at h
      simp only [Except.ok.injEq] at h
      exact ⟨rfl, Or.inr ⟨h0, h.symm⟩⟩

theorem procSet_ok_core (spec : Spec) (opts : Options) (n : String)
    (st st' : LoopState) (h : procSet spec opts n st = .ok st') :
    st'.scen.core = st.scen.core := by
  obtain ⟨-, h2⟩ := procSet_ok_elim spec opts n st st' h
  rcases h2 with ⟨-, rfl⟩ | ⟨-, rfl⟩
  · rfl
  · simp

theorem procSet_ok_set_list (spec : Spec) (opts : Options) (n : String)
    (st st' : LoopState) (h : procSet spec opts n st = .ok st') :
    st'.scen.set_list = st.scen.set_list := by
  obtain ⟨-, h2⟩ := procSet_ok_elim spec opts n st st' h
  rcases h2 with ⟨-, rfl⟩ | ⟨-, rfl⟩
  · rfl
  · rw [addStep_set_list]
    show (stripStep _ _ _ _).scen.sets.map Prod.fst = _
    rw [stripStep_sets]
    rfl

theorem procSet_ok_getSet_ne (spec : Spec) (opts : Options) (n m : String)
    (st st' : LoopState) (h : procSet spec opts n st = .ok st') (hmn : m ≠ n) :
    st'.scen.getSet m = st.scen.getSet m := by
  obtain ⟨-, h2⟩ := procSet_ok_elim spec opts n st st' h
  rcases h2 with ⟨-, rfl⟩ | ⟨-, rfl⟩
  · rfl
  · rw [addStep_getSet_ne spec opts n m _ hmn]
    exact getSet_congr _ _ m (by rw [stripStep_sets])

theorem procSet_ok_dry (spec : Spec) (opts : Options) (n : String)
    (st st' : LoopState) (h : procSet spec opts n st = .ok st')
    (hdr : opts.dry_run = true) : st'.scen = st.scen := by
  obtain ⟨-, h2⟩ := procSet_ok_elim spec opts n st st' h
  rcases h2 with ⟨-, rfl⟩ | ⟨-, rfl⟩
  · rfl
  · rw [addStep_dry _ _ _ _ hdr, stripStep_dry _ _ _ _ hdr]

theorem procSet_ok_no_remove (spec : Spec) (opts : Options) (n : String)
    (st st' : LoopState) (h : procSet spec opts n st = .ok st')
    (hrm : spec.remove.setOf n = []) :
    st'.scen.pars = st.scen.pars ∧ st'.dump = st.dump := by
  obtain ⟨-, h2⟩ := procSet_ok_elim spec opts n st st' h
  rcases h2 with ⟨-, rfl⟩ | ⟨-, rfl⟩
  · exact ⟨rfl, rfl⟩
  · obtain ⟨hs, hd⟩ := stripStep_no_remove spec opts n _ hrm
    constructor
    · rw [addStep_pars, hs]
    · rw [addStep_dump, hd]

theorem procSet_ok_fast (spec : Spec) (opts : Options) (n : String)
    (st st' : LoopState) (h : procSet spec opts n st = .ok st')
    (hfast : opts.fast = true) :
    st'.scen.pars = st.scen.pars ∧ st'.dump = st.dump := by
  obtain ⟨-, h2⟩ := procSet_ok_elim spec opts n st st' h
  rcases h2 with ⟨-, rfl⟩ | ⟨-, rfl⟩
  · exact ⟨rfl, rfl⟩
  · obtain ⟨hs, hd⟩ := stripStep_fast spec opts n _ hfast
    constructor
    · rw [addStep_pars, hs]
    · rw [addStep_dump, hd]

theorem procSet_ok_getSet_self (spec : Spec) (opts : Options) (n : String)
    (st st' : LoopState) (h : procSet spec opts n st = .ok st')
    (hn : n ∈ st.scen.set_list) (hdr : opts.dry_run = false) :
    st'.scen.getSet n =
      st.scen.getSet n ++ (spec.add.setOf n).map (fun e => Elem.str e.effId) := by
  obtain ⟨-, h2⟩ := procSet_ok_elim spec opts n st st' h
  rcases h2 with ⟨h0, rfl⟩ | ⟨-, rfl⟩
  · rw [(totalMention_eq_zero spec n h0).2.2]
    simp
  · have hsets : (stripStep spec opts n
        ⟨st.scen, st.dump, requireLog spec opts n
          (emit opts.quiet .info (.nElements (st.scen.getSet n).length)
            (emit opts.quiet .info (.setHeader n) st.log))⟩).scen.sets = st.scen.sets := by
      rw [stripStep_sets]
    rw [addStep_getSet_self spec opts n _
        (by show n ∈ _; unfold Scenario.set_list; rw [hsets]; exact hn) hdr,
      getSet_congr _ _ n hsets]

theorem procSet_ok_strip_one (spec : Spec) (opts : Options) (n : String)
    (st st' : LoopState) (E : Elem) (h : procSet spec opts n st = .ok st')
    (hrm : spec.remove.setOf n = [E]) (hfast : opts.fast = false)
    (hdr : opts.dry_run = false) :
    st'.scen.pars = st.scen.pars.filter (fun r => !refMatch n E.effId r) ∧
      st'.dump = addDump st.dump n (st.scen.pars.filter (fun r => refMatch n E.effId r)) := by
  obtain ⟨-, h2⟩ := procSet_ok_elim spec opts n st st' h
  rcases h2 with ⟨h0, rfl⟩ | ⟨-, rfl⟩
  · rw [(totalMention_eq_zero spec n h0).2.1] at hrm
    exact List.noConfusion hrm
  · obtain ⟨hs, hd⟩ := stripStep_one spec opts n _ E hrm hfast hdr
    constructor
    · rw [addStep_pars, hs]
    · rw [addStep_dump, hd]

theorem core_eq_units (s t : Scenario) (h : s.core = t.core) : s.units = t.units :=
  congrArg Prod.fst h

theorem core_eq_commits (s t : Scenario) (h : s.core = t.core) : s.commits = t.commits :=
  congrArg (fun p => p.2.1) h

theorem core_eq_checked (s t : Scenario) (h : s.core = t.core) :
    s.checked_out = t.checked_out :=
  congrArg (fun p => p.2.2.1) h

theorem core_eq_solution (s t : Scenario) (h : s.core = t.core) :
    s.has_solution = t.has_solution :=
  congrArg (fun p => p.2.2.2) h

theorem runSets_core (spec : Spec) (opts : Options) :
    ∀ (ns : List String) (st : LoopState),
      (runSets spec opts ns st).1.scen.core = st.scen.core := by
  intro ns
  induction ns with
  | nil => intro st; rfl
  | cons n rest ih =>
    intro st
    cases hp : procSet spec opts n st with
    | error st' =>
      simp only [runSets, hp]
      rw [(procSet_err_state spec opts n st st' hp).1]
    | ok st' =>
      simp only [runSets, hp]
      rw [ih st', procSet_ok_core spec opts n st st' hp]

theorem runSets_getSet_not_mem (spec : Spec) (opts : Options) :
    ∀ (ns : List String) (st : LoopState) (m : String), m ∉ ns →
      (runSets spec opts ns st).1.scen.getSet m = st.scen.getSet m := by
  intro ns
  induction ns with
  | nil => intro st m _; rfl
  | cons n rest ih =>
    intro st m hm
    cases hp : procSet spec opts n st with
    | error st' =>
      simp only [runSets, hp]
      rw [(procSet_err_state spec opts n st st' hp).1]
    | ok st' =>
      simp only [runSets, hp]
      rw [ih st' m (fun hh => hm (List.mem_cons_of_mem n hh)),
        procSet_ok_getSet_ne spec opts n m st st' hp
          (fun hh => hm (hh ▸ List.mem_cons_self n rest))]

theorem runSets_set_list (spec : Spec) (opts : Options) :
    ∀ (ns : List String) (st : LoopState),
      (runSets spec opts ns st).1.scen.set_list = st.scen.set_list := by
  intro ns
  induction ns with
  | nil => intro st; rfl
  | cons n rest ih =>
    intro st
    cases hp : procSet spec opts n st with
    | error st' =>
      simp only [runSets, hp]
      rw [(procSet_err_state spec opts n st st' hp).1]
    | ok st' =>
      simp only [runSets, hp]
      rw [ih st', procSet_ok_set_list spec opts n st st' hp]

theorem runSets_ok_of_no_missing (spec : Spec) (opts : Options) :
    ∀ (ns : List String), ns.Nodup → ∀ st : LoopState,
      (∀ n ∈ ns, findMissing (spec.require.setOf n) (st.scen.getSet n) = none) →
      (runSets spec opts ns st).2 = none := by
  intro ns
  induction ns with
  | nil => intro _ st _; rfl
  | cons n rest ih =>
    intro hnd st hall
    cases hp : procSet spec opts n st with
    | error st' =>
      obtain ⟨-, -, e, hm, -, -⟩ := procSet_err_state spec opts n st st' hp
      rw [hall n (List.mem_cons_self n rest)] at hm
      exact Option.noConfusion hm
    | ok st' =>
      simp only [runSets, hp]
      refine ih (List.nodup_cons.1 hnd).2 st' (fun m hm => ?_)
      rw [procSet_ok_getSet_ne spec opts n m st st' hp
        (fun hh => (List.nodup_cons.1 hnd).1 (hh ▸ hm))]
      exact hall m (List.mem_cons_of_mem n hm)

theorem runSets_err_elim (spec : Spec) (opts : Options) :
    ∀ (ns : List String), ns.Nodup → ∀ (st st' : LoopState) (err : ApplyError),
      runSets spec opts ns st = (st', some err) →
      ∃ n e, n ∈ ns ∧ e ∈ spec.require.setOf n ∧ e ∉ st.scen.getSet n ∧
        LogLine.notFound e ∈ st'.log ∧
        (opts.quiet = false → LogLine.setHeader n ∈ st'.log) := by
  intro ns
  induction ns with
  | nil =>
    intro _ st st' err h
    simp only [runSets, Prod.mk.injEq] at h
    exact Option.noConfusion h.2
  | cons n rest ih =>
    intro hnd st st' err h
    cases hp : procSet spec opts n st with
    | error stE =>
      simp only [runSets, hp, Prod.mk.injEq] at h
      obtain ⟨hE, -⟩ := h
      subst hE
      obtain ⟨-, -, e, hm, hlog1, hlog2⟩ := procSet_err_state spec opts n st stE hp
      obtain ⟨he1, he2⟩ := findMissing_eq_some _ _ _ hm
      exact ⟨n, e, List.mem_cons_self n rest, he1, he2, hlog1, hlog2⟩
    | ok st1 =>
      simp only [runSets, hp] at h
      obtain ⟨m, e, hm1, hm2, hm3, hm4, hm5⟩ := ih (List.nodup_cons.1 hnd).2 st1 st' err h
      refine ⟨m, e, List.mem_cons_of_mem n hm1, hm2, ?_, hm4, hm5⟩
      rw [← procSet_ok_getSet_ne spec opts n m st st1 hp
        (fun hh => (List.nodup_cons.1 hnd).1 (hh ▸ hm1))]
      exact hm3

theorem runSets_err_decomp (spec : Spec) (opts : Options) :
    ∀ (ns : List String) (st stE : LoopState) (err : ApplyError),
      runSets spec opts ns st = (stE, some err) →
      ∃ pre n post st1, ns = pre ++ n :: post ∧
        runSets spec opts pre st = (st1, none) ∧
        procSet spec opts n st1 = .error stE := by
  intro ns
  induction ns with
  | nil =>
    intro st stE err h
    simp only [runSets, Prod.mk.injEq] at h
    exact Option.noConfusion h.2
  | cons n rest ih =>
    intro st stE err h
    cases hp : procSet spec opts n st with
    | error st'' =>
      simp only [runSets, hp, Prod.mk.injEq] at h
      obtain ⟨hE, -⟩ := h
      subst hE
      exact ⟨[], n, rest, st, rfl, rfl, hp⟩
    | ok st1 =>
      simp only [runSets, hp] at h
      obtain ⟨pre', n', post', st1', hsplit, hrun, herr⟩ := ih st1 stE err h
      refine ⟨n :: pre', n', post', st1', by rw [hsplit]; rfl, ?_, herr⟩
      simp only [runSets, hp]
      exact hrun

theorem runSets_no_strip (spec : Spec) (opts : Options) :
    ∀ (ns : List String) (st : LoopState),
      (∀ n ∈ ns, spec.require.setOf n = [] ∧ spec.remove.setOf n = []) →
      (runSets spec opts ns st).2 = none ∧
        (runSets spec opts ns st).1.scen.pars = st.scen.pars ∧
        (runSets spec opts ns st).1.dump = st.dump := by
  intro ns
  induction ns with
  | nil => intro st _; exact ⟨rfl, rfl, rfl⟩
  | cons n rest ih =>
    intro st hall
    cases hp : procSet spec opts n st with
    | error st' =>
      obtain ⟨-, -, e, hm, -, -⟩ := procSet_err_state spec opts n st st' hp
      rw [(hall n (List.mem_cons_self n rest)).1] at hm
      exact Option.noConfusion hm
    | ok st' =>
      simp only [runSets, hp]
      obtain ⟨h1, h2⟩ := procSet_ok_no_remove spec opts n st st' hp
        (hall n (List.mem_cons_self n rest)).2
      obtain ⟨g1, g2, g3⟩ := ih st' (fun m hm => hall m (List.mem_cons_of_mem n hm))
      exact ⟨g1, g2.trans h1, g3.trans h2⟩

theorem runSets_fast (spec : Spec) (opts : Options) (hfast : opts.fast = true) :
    ∀ (ns : List String) (st : LoopState),
      (runSets spec opts ns st).1.scen.pars = st.scen.pars ∧
        (runSets spec opts ns st).1.dump = st.dump := by
  intro ns
  induction ns with
  | nil => intro st; exact ⟨rfl, rfl⟩
  | cons n rest ih =>
    intro st
    cases hp : procSet spec opts n st with
    | error st' =>
      simp only [runSets, hp]
      obtain ⟨h1, h2, -⟩ := procSet_err_state spec opts n st st' hp
      exact ⟨by rw [h1], h2⟩
    | ok st' =>
      simp only [runSets, hp]
      obtain ⟨h1, h2⟩ := procSet_ok_fast spec opts n st st' hp hfast
      obtain ⟨g1, g2⟩ := ih st'
      exact ⟨g1.trans h1, g2.trans h2⟩

theorem runSets_dry_scen (spec : Spec) (opts : Options) (hdr : opts.dry_run = true) :
    ∀ (ns : List String) (st : LoopState),
      (runSets spec opts ns st).1.scen = st.scen := by
  intro ns
  induction ns with
  | nil => intro st; rfl
  | cons n rest ih =>
    intro st
    cases hp : procSet spec opts n st with
    | error st' =>
      simp only [runSets, hp]
      exact (procSet_err_state spec opts n st st' hp).1
    | ok st' =>
      simp only [runSets, hp]
      rw [ih st', procSet_ok_dry spec opts n st st' hp hdr]

theorem runSets_dry_ok (spec : Spec) (opts : Options) (hdr : opts.dry_run = true) :
    ∀ (ns : List String) (st : LoopState),
      (∀ n ∈ ns, findMissing (spec.require.setOf n) (st.scen.getSet n) = none) →
      (runSets spec opts ns st).2 = none := by
  intro ns
  induction ns with
  | nil => intro st _; rfl
  | cons n rest ih =>
    intro st hall
    cases hp : procSet spec opts n st with
    | error st' =>
      obtain ⟨-, -, e, hm, -, -⟩ := procSet_err_state spec opts n st st' hp
      rw [hall n (List.mem_cons_self n rest)] at hm
      exact Option.noConfusion hm
    | ok st' =>
      simp only [runSets, hp]
      refine ih st' (fun m hm => ?_)
      rw [procSet_ok_dry spec opts n st st' hp hdr]
      exact hall m (List.mem_cons_of_mem n hm)

theorem runSets_ok_adds (spec : Spec) (opts : Options) (hdr : opts.dry_run = false) :
    ∀ (ns : List String), ns.Nodup → ∀ (st st' : LoopState),
      runSets spec opts ns st = (st', none) →
      (∀ n ∈ ns, n ∈ st.scen.set_list) →
      ∀ n ∈ ns, st'.scen.getSet n =
        st.scen.getSet n ++ (spec.add.setOf n).map (fun e => Elem.str e.effId) := by
  intro ns
  induction ns with
  | nil => intro _ st st' _ _ n hn; exact absurd hn (List.not_mem_nil n)
  | cons k rest ih =>
    intro hnd st st' h hmem n hn
    cases hp : procSet spec opts k st with
    | error stE =>
      simp only [runSets, hp, Prod.mk.injEq] at h
      exact Option.noConfusion h.2
    | ok st1 =>
      simp only [runSets, hp] at h
      rcases List.mem_cons.1 hn with rfl | hn'
      · have hrest : st'.scen.getSet n = st1.scen.getSet n := by
          have hh := runSets_getSet_not_mem spec opts rest st1 n
            (List.nodup_cons.1 hnd).1
          rw [h] at hh
          exact hh
        rw [hrest]
        exact procSet_ok_getSet_self spec opts n st st1 hp
          (hmem n (List.mem_cons_self n rest)) hdr
      · have hne : n ≠ k := fun hh => (List.nodup_cons.1 hnd).1 (hh ▸ hn')
        rw [ih (List.nodup_cons.1 hnd).2 st1 st' h
            (fun m hm => by
              rw [procSet_ok_set_list spec opts k st st1 hp]
              exact hmem m (List.mem_cons_of_mem k hm))
            n hn',
          procSet_ok_getSet_ne spec opts k n st st1 hp hne]

theorem runSets_strip_one (spec : Spec) (opts : Options) (S : String) (E : Elem)
    (hdr : opts.dry_run = false) (hfast : opts.fast = false)
    (hreq : ∀ n, spec.require.setOf n = [])
    (hrm : ∀ n, spec.remove.setOf n = if n = S then [E] else []) :
    ∀ (ns : List String), ns.Nodup → ∀ st : LoopState,
      (runSets spec opts ns st).2 = none ∧
        (runSets spec opts ns st).1.scen.pars =
          (if S ∈ ns then st.scen.pars.filter (fun r => !refMatch S E.effId r)
            else st.scen.pars) ∧
        (runSets spec opts ns st).1.dump =
          (if S ∈ ns then
            addDump st.dump S (st.scen.pars.filter (fun r => refMatch S E.effId r))
          else st.dump) := by
  intro ns
  induction ns with
  | nil => intro _ st; exact ⟨rfl, by simp [runSets], by simp [runSets]⟩
  | cons k rest ih =>
    intro hnd st
    cases hp : procSet spec opts k st with
    | error st' =>
      obtain ⟨-, -, e, hm, -, -⟩ := procSet_err_state spec opts k st st' hp
      rw [hreq k] at hm
      exact Option.noConfusion hm
    | ok st' =>
      simp only [runSets, hp]
      by_cases hk : k = S
      · subst hk
        have hkrest : k ∉ rest := (List.nodup_cons.1 hnd).1
        obtain ⟨h1, h2⟩ := procSet_ok_strip_one spec opts k st st' E hp
          (by rw [hrm k, if_pos rfl]) hfast hdr
        have hrest : ∀ m ∈ rest, spec.require.setOf m = [] ∧ spec.remove.setOf m = [] := by
          intro m hm
          refine ⟨hreq m, ?_⟩
          rw [hrm m, if_neg (fun hh : m = k => hkrest (hh ▸ hm))]
        obtain ⟨g1, g2, g3⟩ := runSets_no_strip spec opts rest st' hrest
        refine ⟨g1, ?_, ?_⟩
        · rw [if_pos (List.mem_cons_self k rest), g2, h1]
        · rw [if_pos (List.mem_cons_self k rest), g3, h2]
      · have hno : spec.remove.setOf k = [] := by rw [hrm k, if_neg hk]
        obtain ⟨h1, h2⟩ := procSet_ok_no_remove spec opts k st st' hp hno
        obtain ⟨g1, g2, g3⟩ := ih (List.nodup_cons.1 hnd).2 st'
        have hSk : ¬S = k := fun hh => hk hh.symm
        have hmem : S ∈ k :: rest ↔ S ∈ rest := by
          rw [List.mem_cons]
          exact or_iff_right hSk
        by_cases hS : S ∈ rest
        · refine ⟨g1, ?_, ?_⟩
          · rw [if_pos (hmem.2 hS), g2, if_pos hS, h1]
          · rw [if_pos (hmem.2 hS), g3, if_pos hS, h1, h2]
        · refine ⟨g1, ?_, ?_⟩
          · rw [if_neg (fun hh => hS (hmem.1 hh)), g2, if_neg hS, h1]
          · rw [if_neg (fun hh => hS (hmem.1 hh)), g3, if_neg hS, h2]

theorem runSets_ok_no_missing (spec : Spec) (opts : Options) :
    ∀ (ns : List String), ns.Nodup → ∀ (st st' : LoopState),
      runSets spec opts ns st = (st', none) →
      ∀ n ∈ ns, findMissing (spec.require.setOf n) (st.scen.getSet n) = none := by
  intro ns
  induction ns with
  | nil => intro _ st st' _ n hn; exact absurd hn (List.not_mem_nil n)
  | cons k rest ih =>
    intro hnd st st' h n hn
    cases hp : procSet spec opts k st with
    | error stE =>
      simp only [runSets, hp, Prod.mk.injEq] at h
      exact Option.noConfusion h.2
    | ok st1 =>
      simp only [runSets, hp] at h
      rcases List.mem_cons.1 hn with rfl | hn'
      · exact (procSet_ok_elim spec opts n st st1 hp).1
      · have hne : n ≠ k := fun hh => (List.nodup_cons.1 hnd).1 (hh ▸ hn')
        rw [← procSet_ok_getSet_ne spec opts k n st st1 hp hne]
        exact ih (List.nodup_cons.1 hnd).2 st1 st' h n hn'

@[simp] theorem commit_sets (s : Scenario) (m : String) : (s.commit m).sets = s.sets := rfl

@[simp] theorem commit_pars (s : Scenario) (m : String) : (s.commit m).pars = s.pars := rfl

@[simp] theorem commit_units (s : Scenario) (m : String) : (s.commit m).units = s.units := rfl

@[simp] theorem commit_commits (s : Scenario) (m : String) :
    (s.commit m).commits = s.commits ++ [m] := rfl

theorem foldl_unitStep1_fst (opts : Options) :
    ∀ (L : List Elem) (s : Scenario) (lg : List LogLine),
      (L.foldl (unitStep1 opts) (s, lg)).1 =
        { s with units :=
          s.units ++ L.map (fun u => ((promoteUnit u).id, (promoteUnit u).name)) } := by
  intro L
  induction L with
  | nil => intro s lg; simp
  | cons u L ih =>
    intro s lg
    rw [List.foldl_cons]
    have he : unitStep1 opts (s, lg) u =
        (s.add_unit (promoteUnit u).id (promoteUnit u).name,
          emit opts.quiet .info (.addUnit (promoteUnit u).id) lg) := rfl
    rw [he, ih]
    simp [Scenario.add_unit, List.append_assoc]

theorem foldl_unitStep1_mem (opts : Options) :
    ∀ (L : List Elem) (s : Scenario) (lg : List LogLine) (a : LogLine), a ∈ lg →
      a ∈ (L.foldl (unitStep1 opts) (s, lg)).2 := by
  intro L
  induction L with
  | nil => intro s lg a ha; exact ha
  | cons u L ih =>
    intro s lg a ha
    rw [List.foldl_cons]
    have he : unitStep1 opts (s, lg) u =
        (s.add_unit (promoteUnit u).id (promoteUnit u).name,
          emit opts.quiet .info (.addUnit (promoteUnit u).id) lg) := rfl
    rw [he]
    exact ih _ _ a (mem_emit_of_mem _ _ _ _ _ ha)

theorem unitsStep_fst (spec : Spec) (opts : Options) (s : Scenario) (lg : List LogLine) :
    (unitsStep spec opts (s, lg)).1 = { s with units := s.units ++ unitsList spec } := by
  unfold unitsStep unitsList
  exact foldl_unitStep1_fst opts _ s lg

theorem unitsStep_mem (spec : Spec) (opts : Options) (s : Scenario) (lg : List LogLine)
    (a : LogLine) (ha : a ∈ lg) : a ∈ (unitsStep spec opts (s, lg)).2 := by
  unfold unitsStep
  exact foldl_unitStep1_mem opts _ s lg a ha

theorem dataStep_fields (data : Option DataFn) (opts : Options) (s : Scenario) :
    (dataStep data opts s).sets = s.sets ∧ (dataStep data opts s).units = s.units ∧
      (dataStep data opts s).commits = s.commits ∧
      (dataStep data opts s).checked_out = s.checked_out ∧
      (dataStep data opts s).has_solution = s.has_solution := by
  unfold dataStep
  cases data with
  | none => exact ⟨rfl, rfl, rfl, rfl, rfl⟩
  | some f =>
    by_cases hemp : (f s opts.dry_run).isEmpty <;>
      by_cases hdr : opts.dry_run <;>
        simp [hemp, hdr, add_par_data] <;>
          split <;> simp

theorem dataStep_dry (data : Option DataFn) (opts : Options) (s : Scenario)
    (hdr : opts.dry_run = true) : dataStep data opts s = s := by
  unfold dataStep
  cases data with
  | none => rfl
  | some f =>
    split
    · rfl
    · simp [add_par_data, hdr]

theorem dataStep_none (opts : Options) (s : Scenario) : dataStep none opts s = s := rfl

theorem prep_dry (scen : Scenario) (opts : Options) (h : opts.dry_run = true) :
    prep scen opts = scen := by
  simp [prep, h]

theorem prep_not_dry (scen : Scenario) (opts : Options) (h : opts.dry_run = false) :
    prep scen opts = { scen with has_solution := false, checked_out := true } := by
  cases hs : scen.has_solution <;>
    simp [prep, h, discardSolution, Scenario.remove_solution, maybe_check_out, hs]

theorem prep_fields (scen : Scenario) (opts : Options) :
    (prep scen opts).sets = scen.sets ∧ (prep scen opts).pars = scen.pars ∧
      (prep scen opts).units = scen.units ∧ (prep scen opts).commits = scen.commits := by
  cases h : opts.dry_run <;> cases hs : scen.has_solution <;>
    simp [prep, discardSolution, Scenario.remove_solution, maybe_check_out, h, hs]

theorem prep_set_list (scen : Scenario) (opts : Options) :
    (prep scen opts).set_list = scen.set_list := by
  unfold Scenario.set_list
  rw [(prep_fields scen opts).1]

theorem prep_getSet (scen : Scenario) (opts : Options) (n : String) :
    (prep scen opts).getSet n = scen.getSet n :=
  getSet_congr _ _ n (prep_fields scen opts).1

theorem applyBody_err_eq (scen : Scenario) (spec : Spec) (data : Option DataFn)
    (opts : Options) :
    (applyBody scen spec data opts).err =
      (runSets spec opts scen.set_list ⟨scen, [], []⟩).2 := by
  unfold applyBody
  rcases hr : runSets spec opts scen.set_list ⟨scen, [], []⟩ with ⟨st, err⟩
  cases err <;> simp

theorem applyBody_err_state (scen : Scenario) (spec : Spec) (data : Option DataFn)
    (opts : Options) (st : LoopState) (e : ApplyError)
    (h : runSets spec opts scen.set_list ⟨scen, [], []⟩ = (st, some e)) :
    applyBody scen spec data opts = ⟨st.scen, st.dump, st.log, some e⟩ := by
  simp only [applyBody, h]

theorem applyBody_ok_state (scen : Scenario) (spec : Spec) (data : Option DataFn)
    (opts : Options) (st : LoopState)
    (h : runSets spec opts scen.set_list ⟨scen, [], []⟩ = (st, none)) :
    applyBody scen spec data opts =
      ⟨(if opts.dry_run then
          dataStep data opts { st.scen with units := st.scen.units ++ unitsList spec }
        else
          (dataStep data opts
            { st.scen with units := st.scen.units ++ unitsList spec }).commit
            (opts.message.getD defaultMessage)),
        st.dump,
        emit opts.quiet .info .commitLine
          (unitsStep spec opts (st.scen,
            emit opts.quiet .info (.nRemoved (sumDump st.dump)) st.log)).2,
        none⟩ := by
  simp only [applyBody, h]
  rw [unitsStep_fst]

/-- C8: for every call to apply with dry_run=false, before any per-set
processing the component first discards any existing solve results on the
store — the absence of a solution being a tolerated no-op rather than an
error — and then checks the store out for editing, a no-op if the store is
already checked out: the whole call is equal to running the post-checkout
body on the store with `has_solution := false` and `checked_out := true`,
whatever the initial values of those two flags were. -/
theorem c8_discard_and_checkout_first (scen : Scenario) (spec : Spec)
    (data : Option DataFn) (opts : Options) (h : opts.dry_run = false) :
    applySpec scen spec data opts =
      applyBody { scen with has_solution := false, checked_out := true } spec data opts := by
  unfold applySpec
  rw [prep_not_dry scen opts h]

/-- Witness for C8 at a concrete store that carries a solution and is not
checked out. -/
theorem c8_witness :
    applySpec scenTechSolved specEmpty none opts_plain =
      applyBody ⟨[("technology", [.str "coal_ppl"])], [], [], true, false, []⟩
        specEmpty none opts_plain :=
  c8_discard_and_checkout_first scenTechSolved specEmpty none opts_plain rfl

/-- C6: with fast=true the parameter-data-stripping step is skipped
entirely: every parameter row present before the call is still present
afterwards (data callback absent), including rows referencing elements
listed in spec.remove, and the removed-data ledger stays empty. -/
theorem c6_fast_no_stripping (scen : Scenario) (spec : Spec) (opts : Options)
    (hfast : opts.fast = true) :
    (applySpec scen spec none opts).dump = [] ∧
      (applySpec scen spec none opts).scen.pars = scen.pars := by
  unfold applySpec
  rcases hr : runSets spec opts (prep scen opts).set_list ⟨prep scen opts, [], []⟩
    with ⟨st, err⟩
  obtain ⟨hp1, hp2⟩ :=
    runSets_fast spec opts hfast (prep scen opts).set_list ⟨prep scen opts, [], []⟩
  rw [hr] at hp1 hp2
  have hpars : st.scen.pars = scen.pars := hp1.trans (prep_fields scen opts).2.1
  cases err with
  | some e =>
    rw [applyBody_err_state (prep scen opts) spec none opts st e hr]
    exact ⟨hp2, hpars⟩
  | none =>
    rw [applyBody_ok_state (prep scen opts) spec none opts st hr]
    refine ⟨hp2, ?_⟩
    cases hdr : opts.dry_run <;> simp [hdr, dataStep_none, hpars]

/-- Witness for C6: the stale row referencing the removed element survives
a fast run and the ledger is empty. -/
theorem c6_witness :
    (applySpec scenWithPar specRemoveOld none opts_fast).dump = [] ∧
      (applySpec scenWithPar specRemoveOld none opts_fast).scen.pars =
        scenWithPar.pars :=
  c6_fast_no_stripping scenWithPar specRemoveOld opts_fast rfl

/-- C2 (amended): with dry_run=true and no missing required element, apply
completes without error and leaves the store's set contents, parameter
tables, checkout state, solve results and commit history unchanged — but
not necessarily the unit registry, which the unit-registration step still
extends even under dry_run. -/
theorem c2_dry_run_frame (scen : Scenario) (spec : Spec) (data : Option DataFn)
    (opts : Options) (hdr : opts.dry_run = true)
    (hreq : ∀ n ∈ scen.set_list,
      findMissing (spec.require.setOf n) (scen.getSet n) = none) :
    (applySpec scen spec data opts).err = none ∧
      (applySpec scen spec data opts).scen.sets = scen.sets ∧
      (applySpec scen spec data opts).scen.pars = scen.pars ∧
      (applySpec scen spec data opts).scen.checked_out = scen.checked_out ∧
      (applySpec scen spec data opts).scen.has_solution = scen.has_solution ∧
      (applySpec scen spec data opts).scen.commits = scen.commits := by
  unfold applySpec
  rw [prep_dry scen opts hdr]
  rcases hr : runSets spec opts scen.set_list ⟨scen, [], []⟩ with ⟨st, err⟩
  have hscen : st.scen = scen := by
    have h := runSets_dry_scen spec opts hdr scen.set_list ⟨scen, [], []⟩
    rw [hr] at h
    exact h
  have herr : err = none := by
    have h := runSets_dry_ok spec opts hdr scen.set_list ⟨scen, [], []⟩ hreq
    rw [hr] at h
    exact h
  subst herr
  rw [applyBody_ok_state scen spec data opts st hr]
  refine ⟨rfl, ?_, ?_, ?_, ?_, ?_⟩ <;> simp [hdr, dataStep_dry, hscen]

/-- Witness for C2 (amended) at a dry run of an add-only spec whose
required elements are all present. -/
theorem c2_witness :
    (applySpec scenTech specAddGas none opts_dry).err = none ∧
      (applySpec scenTech specAddGas none opts_dry).scen.sets = scenTech.sets ∧
      (applySpec scenTech specAddGas none opts_dry).scen.pars = scenTech.pars ∧
      (applySpec scenTech specAddGas none opts_dry).scen.checked_out =
        scenTech.checked_out ∧
      (applySpec scenTech specAddGas none opts_dry).scen.has_solution =
        scenTech.has_solution ∧
      (applySpec scenTech specAddGas none opts_dry).scen.commits =
        scenTech.commits :=
  c2_dry_run_frame scenTech specAddGas none opts_dry rfl (by decide)

/-- Counterexample to C2 as stated: under dry_run=true with all required
elements present, the unit registry is NOT left identical — a spec with
add.unit = ["kg_CO2"] grows the registry even though the run is a dry run. -/
theorem c2_counterexample :
    (applySpec scenTech specUnitStr none opts_dry).err = none ∧
      (applySpec scenTech specUnitStr none opts_dry).scen.units ≠
        scenTech.units := by
  decide

theorem dataStep_sets (data : Option DataFn) (opts : Options) (s : Scenario) :
    (dataStep data opts s).sets = s.sets := (dataStep_fields data opts s).1

theorem dataStep_units (data : Option DataFn) (opts : Options) (s : Scenario) :
    (dataStep data opts s).units = s.units := (dataStep_fields data opts s).2.1

theorem dataStep_commits (data : Option DataFn) (opts : Options) (s : Scenario) :
    (dataStep data opts s).commits = s.commits := (dataStep_fields data opts s).2.2.1

/-- C3 (amended): in every call to apply that completes without the
required-element ValueError — including dry runs, for which registration is
not suppressed — every entry of spec.add for the reserved set name "unit"
is registered with the store's unit registry: a bare string u is promoted
to a Code with id u and name u, and the registered entry is the Code's id
paired with a comment equal to the Code's name. -/
theorem c3_units_registered (scen : Scenario) (spec : Spec) (data : Option DataFn)
    (opts : Options) (u : Elem)
    (herr : (applySpec scen spec data opts).err = none)
    (hu : u ∈ spec.add.setOf "unit") :
    ((promoteUnit u).id, (promoteUnit u).name) ∈
      (applySpec scen spec data opts).scen.units := by
  unfold applySpec at herr ⊢
  rcases hr : runSets spec opts (prep scen opts).set_list ⟨prep scen opts, [], []⟩
    with ⟨st, err⟩
  cases err with
  | some e =>
    rw [applyBody_err_state (prep scen opts) spec data opts st e hr] at herr
    exact Option.noConfusion herr
  | none =>
    rw [applyBody_ok_state (prep scen opts) spec data opts st hr]
    have hmem : ((promoteUnit u).id, (promoteUnit u).name) ∈
        st.scen.units ++ unitsList spec :=
      List.mem_append_right _ (List.mem_map_of_mem _ hu)
    cases hdr : opts.dry_run
    · simpa [hdr, dataStep_units] using hmem
    · simpa [hdr, dataStep_units] using hmem

/-- Counterexample to C3 as literally stated ("in every call to apply"): a
call that raises the required-element ValueError aborts before the unit
loop, so the unit entry is never registered. -/
theorem c3_counterexample :
    (applySpec scenEmptyTech specReqCoalUnit none opts_plain).err =
        some ApplyError.valueError ∧
      (applySpec scenEmptyTech specReqCoalUnit none opts_plain).scen.units = [] := by
  decide

/-- Witness for C3 (amended): the Code form registers comment "kilograms of
CO2" even under dry_run; the bare-string form registers id "kg_CO2" with
itself as comment. -/
theorem c3_witness :
    ("kg_CO2", "kilograms of CO2") ∈
        (applySpec scenTech specUnitCode none opts_dry).scen.units ∧
      ("kg_CO2", "kg_CO2") ∈
        (applySpec scenTech specUnitStr none opts_plain).scen.units :=
  ⟨c3_units_registered scenTech specUnitCode none opts_dry
      (.code ⟨"kg_CO2", "kilograms of CO2"⟩) (by decide) (by decide),
    c3_units_registered scenTech specUnitStr none opts_plain
      (.str "kg_CO2") (by decide) (by decide)⟩

/-- C7 (confirmed): for every spec and every call to apply that completes
(no missing required element aborted it), every element listed in spec.add
for a known set is appended to that set in the store, after the set's
original contents and preserving listed order, using the id field of a
Code element and the raw identifier otherwise — and only when dry_run is
false: under dry_run the set contents are unchanged. The store is
committed (with the configured message) exactly when dry_run is false. -/
theorem c7_add_step (scen : Scenario) (spec : Spec) (data : Option DataFn)
    (opts : Options) (hnd : scen.set_list.Nodup)
    (herr : (applySpec scen spec data opts).err = none) :
    (∀ n ∈ scen.set_list, (applySpec scen spec data opts).scen.getSet n =
      scen.getSet n ++ (if opts.dry_run then []
        else (spec.add.setOf n).map (fun e => Elem.str e.effId))) ∧
    (applySpec scen spec data opts).scen.commits =
      (if opts.dry_run then scen.commits
        else scen.commits ++ [opts.message.getD defaultMessage]) := by
  have herr_eq : (applySpec scen spec data opts).err =
      (runSets spec opts (prep scen opts).set_list ⟨prep scen opts, [], []⟩).2 := by
    unfold applySpec
    rw [applyBody_err_eq]
  rcases hr : runSets spec opts (prep scen opts).set_list ⟨prep scen opts, [], []⟩
    with ⟨st, err⟩
  rw [hr] at herr_eq
  have hen : err = none := herr_eq.symm.trans herr
  subst hen
  unfold applySpec
  rw [applyBody_ok_state (prep scen opts) spec data opts st hr]
  dsimp only
  have hsets : (if opts.dry_run then
      dataStep data opts { st.scen with units := st.scen.units ++ unitsList spec }
    else
      (dataStep data opts
        { st.scen with units := st.scen.units ++ unitsList spec }).commit
        (opts.message.getD defaultMessage)).sets = st.scen.sets := by
    split
    · rw [dataStep_sets]
    · rw [commit_sets, dataStep_sets]
  constructor
  · intro n hn
    rw [getSet_congr _ _ n hsets]
    cases hdr : opts.dry_run with
    | true =>
      have hsc : st.scen = scen := by
        have h := runSets_dry_scen spec opts hdr (prep scen opts).set_list
          ⟨prep scen opts, [], []⟩
        rw [hr] at h
        rw [h, prep_dry scen opts hdr]
      rw [hsc]
      simp
    | false =>
      have hadd := runSets_ok_adds spec opts hdr (prep scen opts).set_list
        (by rw [prep_set_list]; exact hnd) ⟨prep scen opts, [], []⟩ st hr
        (fun m hm => hm) n (by rw [prep_set_list]; exact hn)
      rw [hadd, prep_getSet]
      simp
  · have hcore : st.scen.core = (prep scen opts).core := by
      have h := runSets_core spec opts (prep scen opts).set_list
        ⟨prep scen opts, [], []⟩
      rw [hr] at h
      exact h
    have hcm : st.scen.commits = scen.commits := by
      rw [core_eq_commits _ _ hcore, (prep_fields scen opts).2.2.2]
    cases hdr : opts.dry_run with
    | true => simp [hdr, dataStep_commits, hcm]
    | false => simp [hdr, dataStep_commits, hcm]

/-- Witness for C7: the end-to-end scenario of the spec — store with
technology = ["coal_ppl"], spec adding technology "gas_ppl" — yields
technology = ["coal_ppl", "gas_ppl"], a commit with the default message,
and an empty ledger (total removed count 0). -/
theorem c7_witness :
    (applySpec scenTech specAddGas none opts_plain).err = none ∧
      (applySpec scenTech specAddGas none opts_plain).scen.getSet "technology" =
        [.str "coal_ppl", .str "gas_ppl"] ∧
      (applySpec scenTech specAddGas none opts_plain).scen.commits =
        [defaultMessage] ∧
      (applySpec scenTech specAddGas none opts_plain).dump = [] := by
  obtain ⟨h2, h3⟩ :=
    c7_add_step scenTech specAddGas none opts_plain (by decide) (by decide)
  refine ⟨by decide, ?_, ?_, by decide⟩
  · rw [h2 "technology" (by decide)]
    decide
  · rw [h3]
    decide

theorem refMatch_false_iff (n e : String) (r : ParRow) :
    refMatch n e r = false ↔ (n, e) ∉ r.refs := by
  simp [refMatch]

/-- C5 (confirmed): for a store containing parameter rows referencing E in
set S and a spec whose only removal is remove.S = [E] (no requirements),
a run with dry_run=false and fast=false completes without error; no
parameter row referencing E in S's structural role remains; the
removed-data ledger is exactly the singleton mapping of S to the rows of
the original store that referenced (S, E); and the reported removed count
(the logged nRemoved line) equals the sum of ledger entry lengths. -/
theorem c5_strip_referential_integrity (scen : Scenario) (spec : Spec)
    (S E : String) (opts : Options) (hnd : scen.set_list.Nodup)
    (hS : S ∈ scen.set_list)
    (_hrow : ∃ r ∈ scen.pars, (S, E) ∈ r.refs)
    (hreq : ∀ n, spec.require.setOf n = [])
    (hrm : ∀ n, spec.remove.setOf n = if n = S then [Elem.str E] else [])
    (hdr : opts.dry_run = false) (hfast : opts.fast = false)
    (hq : opts.quiet = false) :
    (applySpec scen spec none opts).err = none ∧
      (∀ r ∈ (applySpec scen spec none opts).scen.pars, (S, E) ∉ r.refs) ∧
      (applySpec scen spec none opts).dump =
        [(S, scen.pars.filter (fun r => refMatch S E r))] ∧
      LogLine.nRemoved (sumDump (applySpec scen spec none opts).dump) ∈
        (applySpec scen spec none opts).log := by
  unfold applySpec
  rcases hr : runSets spec opts (prep scen opts).set_list ⟨prep scen opts, [], []⟩
    with ⟨st, err⟩
  obtain ⟨g1, g2, g3⟩ := runSets_strip_one spec opts S (Elem.str E) hdr hfast hreq hrm
    (prep scen opts).set_list (by rw [prep_set_list]; exact hnd)
    ⟨prep scen opts, [], []⟩
  rw [hr] at g1 g2 g3
  have herr : err = none := g1
  subst herr
  have hSpre : S ∈ (prep scen opts).set_list := by rw [prep_set_list]; exact hS
  rw [if_pos hSpre] at g2 g3
  have hpp : (prep scen opts).pars = scen.pars := (prep_fields scen opts).2.1
  have hpars : st.scen.pars = scen.pars.filter (fun r => !refMatch S E r) := by
    rw [g2]
    show List.filter _ (prep scen opts).pars = _
    rw [hpp]
    rfl
  have hdump : st.dump = [(S, scen.pars.filter (fun r => refMatch S E r))] := by
    rw [g3]
    show addDump [] S (List.filter _ (prep scen opts).pars) = _
    rw [hpp]
    rfl
  rw [applyBody_ok_state (prep scen opts) spec none opts st hr]
  dsimp only
  have hparsR : (if opts.dry_run then
      dataStep none opts { st.scen with units := st.scen.units ++ unitsList spec }
    else
      (dataStep none opts
        { st.scen with units := st.scen.units ++ unitsList spec }).commit
        (opts.message.getD defaultMessage)).pars = st.scen.pars := by
    split
    · rw [dataStep_none]
    · rw [commit_pars, dataStep_none]
  refine ⟨rfl, ?_, hdump, ?_⟩
  · intro r hrr
    rw [hparsR, hpars] at hrr
    have := List.of_mem_filter hrr
    exact (refMatch_false_iff S E r).1 (by simpa using this)
  · refine mem_emit_of_mem _ _ _ _ _ ?_
    refine unitsStep_mem spec opts st.scen _ _ ?_
    rw [hq]
    simp

/-- Witness for C5: removing technology "old" strips the stale inv_cost row,
records it in the ledger under "technology", and the logged removed count
matches. -/
theorem c5_witness :
    (applySpec scenWithPar specRemoveOld none opts_plain).err = none ∧
      (∀ r ∈ (applySpec scenWithPar specRemoveOld none opts_plain).scen.pars,
        ("technology", "old") ∉ r.refs) ∧
      (applySpec scenWithPar specRemoveOld none opts_plain).dump =
        [("technology", [rowOld])] ∧
      LogLine.nRemoved
          (sumDump (applySpec scenWithPar specRemoveOld none opts_plain).dump) ∈
        (applySpec scenWithPar specRemoveOld none opts_plain).log := by
  obtain ⟨h1, h2, h3, h4⟩ := c5_strip_referential_integrity scenWithPar specRemoveOld
    "technology" "old" opts_plain (by decide) (by decide) (by decide)
    (fun n => rfl)
    (fun n => by
      by_cases h : n = "technology"
      · subst h
        rfl
      · show lookupSet [("technology", [Elem.str "old"])] n = _
        rw [lookupSet_cons, if_neg (fun hh : "technology" = n => h hh.symm), if_neg h]
        rfl)
    rfl rfl rfl
  refine ⟨h1, h2, ?_, h4⟩
  rw [h3]
  decide

/-- C1 (amended): whenever some known set has a required element absent
from the store's current contents, apply raises — and it raises only then:
the error outcome is exactly the bare ValueError of line 92, which carries
no payload; the set name and the missing element's identifier are carried
by the log (the error-level "not found" line naming the element, preceded
by the info-level set header naming the set), and the condition propagates
uncaught to the caller. -/
theorem c1_missing_required_raises (scen : Scenario) (spec : Spec)
    (data : Option DataFn) (opts : Options) (hnd : scen.set_list.Nodup)
    (hq : opts.quiet = false) :
    ((∃ n ∈ scen.set_list, ∃ e ∈ spec.require.setOf n, e ∉ scen.getSet n) ↔
      (applySpec scen spec data opts).err = some ApplyError.valueError) ∧
    ((applySpec scen spec data opts).err = some ApplyError.valueError →
      ∃ n e, e ∈ spec.require.setOf n ∧ e ∉ scen.getSet n ∧
        LogLine.setHeader n ∈ (applySpec scen spec data opts).log ∧
        LogLine.notFound e ∈ (applySpec scen spec data opts).log) := by
  have herr_eq : (applySpec scen spec data opts).err =
      (runSets spec opts (prep scen opts).set_list ⟨prep scen opts, [], []⟩).2 := by
    unfold applySpec
    rw [applyBody_err_eq]
  rcases hr : runSets spec opts (prep scen opts).set_list ⟨prep scen opts, [], []⟩
    with ⟨st, err⟩
  rw [hr] at herr_eq
  have hnd' : (prep scen opts).set_list.Nodup := by
    rw [prep_set_list]
    exact hnd
  cases err with
  | none =>
    have hnone : (applySpec scen spec data opts).err = none := herr_eq
    constructor
    · constructor
      · rintro ⟨n, hn, e, he, hb⟩
        exfalso
        have hfm := runSets_ok_no_missing spec opts (prep scen opts).set_list hnd'
          ⟨prep scen opts, [], []⟩ st hr n (by rw [prep_set_list]; exact hn)
        have hb2 : e ∉ (prep scen opts).getSet n := by
          rw [prep_getSet]
          exact hb
        exact findMissing_ne_none_of_missing _ _ e he hb2 hfm
      · intro h
        exact Option.noConfusion (hnone.symm.trans h)
    · intro h
      exact absurd (hnone.symm.trans h) (by simp)
  | some e' =>
    cases e'
    obtain ⟨n, e, hn, he, hb, hl1, hl2⟩ := runSets_err_elim spec opts
      (prep scen opts).set_list hnd' ⟨prep scen opts, [], []⟩ st ApplyError.valueError hr
    have hn' : n ∈ scen.set_list := by
      rw [← prep_set_list scen opts]
      exact hn
    have hb' : e ∉ scen.getSet n := by
      rw [← prep_getSet scen opts n]
      exact hb
    have hres : applySpec scen spec data opts =
        ⟨st.scen, st.dump, st.log, some ApplyError.valueError⟩ := by
      unfold applySpec
      exact applyBody_err_state _ spec data opts st _ hr
    constructor
    · constructor
      · intro _
        rw [hres]
      · intro _
        exact ⟨n, hn', e, he, hb'⟩
    · intro _
      refine ⟨n, e, he, hb', ?_, ?_⟩
      · rw [hres]
        exact hl2 hq
      · rw [hres]
        exact hl1

/-- Counterexample to C1 as stated: the raised condition carries neither
the set name nor the missing element's identifier — two calls failing on
different sets and different missing elements produce identical condition
values (the payload-free ValueError); the identifying information appears
only in the logs. -/
theorem c1_counterexample :
    (applySpec scenEmptyTech specReqE1 none opts_plain).err =
        some ApplyError.valueError ∧
      (applySpec scenEmptyNode specReqNode none opts_plain).err =
        some ApplyError.valueError ∧
      (applySpec scenEmptyTech specReqE1 none opts_plain).err =
        (applySpec scenEmptyNode specReqNode none opts_plain).err ∧
      LogLine.notFound (.str "e1") ∈
        (applySpec scenEmptyTech specReqE1 none opts_plain).log ∧
      LogLine.notFound (.str "e2") ∈
        (applySpec scenEmptyNode specReqNode none opts_plain).log := by
  decide

/-- Witness for C1 (amended) at a store whose technology set lacks the
required element "e1". -/
theorem c1_witness :
    ((∃ n ∈ scenEmptyTech.set_list, ∃ e ∈ specReqE1.require.setOf n,
        e ∉ scenEmptyTech.getSet n) ↔
      (applySpec scenEmptyTech specReqE1 none opts_plain).err =
        some ApplyError.valueError) ∧
    ((applySpec scenEmptyTech specReqE1 none opts_plain).err =
        some ApplyError.valueError →
      ∃ n e, e ∈ specReqE1.require.setOf n ∧ e ∉ scenEmptyTech.getSet n ∧
        LogLine.setHeader n ∈ (applySpec scenEmptyTech specReqE1 none opts_plain).log ∧
        LogLine.notFound e ∈ (applySpec scenEmptyTech specReqE1 none opts_plain).log) :=
  c1_missing_required_raises scenEmptyTech specReqE1 none opts_plain (by decide) rfl

/-- C4 (confirmed): on a missing required element the call fails at the
first such set: the store's set-name list splits as pre ++ n :: post where
the whole prefix was processed normally, the failing set n has a missing
required element, the result state is exactly the state after the prefix
(so mutations to earlier sets remain, with no rollback, and no set after n
is processed), and no commit is performed. -/
theorem c4_fail_fast_no_rollback (scen : Scenario) (spec : Spec)
    (data : Option DataFn) (opts : Options) (e : ApplyError)
    (herr : (applySpec scen spec data opts).err = some e) :
    (applySpec scen spec data opts).scen.commits = scen.commits ∧
      ∃ pre n post st1,
        scen.set_list = pre ++ n :: post ∧
        runSets spec opts pre ⟨prep scen opts, [], []⟩ = (st1, none) ∧
        (∃ x, findMissing (spec.require.setOf n) (st1.scen.getSet n) = some x) ∧
        (applySpec scen spec data opts).scen = st1.scen ∧
        (applySpec scen spec data opts).dump = st1.dump := by
  have herr_eq : (applySpec scen spec data opts).err =
      (runSets spec opts (prep scen opts).set_list ⟨prep scen opts, [], []⟩).2 := by
    unfold applySpec
    rw [applyBody_err_eq]
  rcases hr : runSets spec opts (prep scen opts).set_list ⟨prep scen opts, [], []⟩
    with ⟨stE, err⟩
  rw [hr] at herr_eq
  have hee : err = some e := herr_eq.symm.trans herr
  subst hee
  obtain ⟨pre, n, post, st1, hsplit, hrun, herrp⟩ :=
    runSets_err_decomp spec opts (prep scen opts).set_list ⟨prep scen opts, [], []⟩ stE e hr
  obtain ⟨hsc, hdp, x, hmx, -, -⟩ := procSet_err_state spec opts n st1 stE herrp
  have hres : applySpec scen spec data opts = ⟨stE.scen, stE.dump, stE.log, some e⟩ := by
    unfold applySpec
    exact applyBody_err_state _ spec data opts stE e hr
  constructor
  · rw [hres]
    show stE.scen.commits = scen.commits
    rw [hsc]
    have hc1 : st1.scen.core = (prep scen opts).core := by
      have h := runSets_core spec opts pre ⟨prep scen opts, [], []⟩
      rw [hrun] at h
      exact h
    rw [core_eq_commits _ _ hc1]
    exact (prep_fields scen opts).2.2.2
  · refine ⟨pre, n, post, st1, ?_, hrun, ⟨x, hmx⟩, ?_, ?_⟩
    · rw [← prep_set_list scen opts]
      exact hsplit
    · rw [hres]
      exact hsc
    · rw [hres]
      exact hdp

/-- Witness for C4: two sets, "commodity" (add-only, processed first) and
"technology" (with a missing required element): the call fails, the
commodity addition persists, and nothing was committed. -/
theorem c4_witness :
    (applySpec scenTwoSets specAddReq none opts_plain).scen.commits =
        scenTwoSets.commits ∧
      (applySpec scenTwoSets specAddReq none opts_plain).scen.getSet "commodity" =
        [.str "water", .str "salt"] ∧
      (∃ pre n post st1,
        scenTwoSets.set_list = pre ++ n :: post ∧
        runSets specAddReq opts_plain pre ⟨prep scenTwoSets opts_plain, [], []⟩ =
          (st1, none) ∧
        (∃ x, findMissing (specAddReq.require.setOf n) (st1.scen.getSet n) = some x) ∧
        (applySpec scenTwoSets specAddReq none opts_plain).scen = st1.scen ∧
        (applySpec scenTwoSets specAddReq none opts_plain).dump = st1.dump) := by
  obtain ⟨h1, h2⟩ := c4_fail_fast_no_rollback scenTwoSets specAddReq none opts_plain
    ApplyError.valueError (by decide)
  exact ⟨h1, by decide, h2⟩

theorem lookupSet_filter_ne :
    ∀ (l : List (String × List Elem)) (X n : String),
      lookupSet (l.filter (fun p => !decide (p.1 = X))) n =
        if n = X then ([] : List Elem) else lookupSet l n := by
  intro l
  induction l with
  | nil => intro X n; by_cases hn : n = X <;> simp [hn, lookupSet]
  | cons p rest ih =>
    intro X n
    obtain ⟨m, v⟩ := p
    by_cases hm : m = X
    · by_cases hn : n = X
      · simp [List.filter_cons, hm, hn, ih]
      · have h1 : ¬X = n := fun hh => hn hh.symm
        simp [List.filter_cons, hm, hn, h1, lookupSet_cons, ih]
    · by_cases hmn : m = n
      · have hnX : ¬n = X := fun hh => hm (hmn.trans hh)
        simp [List.filter_cons, hm, hmn, hnX, lookupSet_cons]
      · simp [List.filter_cons, hm, hmn, lookupSet_cons, ih]

theorem setOf_dropName (info : ScenarioInfo) (X n : String) :
    (info.dropName X).setOf n = if n = X then [] else info.setOf n := by
  unfold ScenarioInfo.dropName ScenarioInfo.setOf
  exact lookupSet_filter_ne info.set X n

theorem dropName_setOf_ne (spec : Spec) (X n : String) (h : n ≠ X) :
    (spec.dropName X).require.setOf n = spec.require.setOf n ∧
      (spec.dropName X).remove.setOf n = spec.remove.setOf n ∧
      (spec.dropName X).add.setOf n = spec.add.setOf n := by
  unfold Spec.dropName
  refine ⟨?_, ?_, ?_⟩ <;> rw [setOf_dropName, if_neg h]

theorem procSet_congr (spec spec' : Spec) (opts : Options) (n : String)
    (st : LoopState)
    (h1 : spec.require.setOf n = spec'.require.setOf n)
    (h2 : spec.remove.setOf n = spec'.remove.setOf n)
    (h3 : spec.add.setOf n = spec'.add.setOf n) :
    procSet spec opts n st = procSet spec' opts n st := by
  unfold procSet totalMention requireLog stripStep addStep
  rw [h1, h2, h3]

theorem runSets_congr (spec spec' : Spec) (opts : Options) :
    ∀ (ns : List String) (st : LoopState),
      (∀ n ∈ ns, spec.require.setOf n = spec'.require.setOf n ∧
        spec.remove.setOf n = spec'.remove.setOf n ∧
        spec.add.setOf n = spec'.add.setOf n) →
      runSets spec opts ns st = runSets spec' opts ns st := by
  intro ns
  induction ns with
  | nil => intro st _; rfl
  | cons n rest ih =>
    intro st hall
    have hc := procSet_congr spec spec' opts n st
      (hall n (List.mem_cons_self n rest)).1
      (hall n (List.mem_cons_self n rest)).2.1
      (hall n (List.mem_cons_self n rest)).2.2
    show (match procSet spec opts n st with
      | .error st' => (st', some ApplyError.valueError)
      | .ok st' => runSets spec opts rest st') = _
    rw [hc]
    cases hp : procSet spec' opts n st with
    | error st' => simp [runSets, hp]
    | ok st' =>
      simp only [runSets, hp]
      exact ih st' (fun m hm => hall m (List.mem_cons_of_mem n hm))

theorem unitsStep_congr (spec spec' : Spec) (opts : Options)
    (st : Scenario × List LogLine)
    (h : spec.add.setOf "unit" = spec'.add.setOf "unit") :
    unitsStep spec opts st = unitsStep spec' opts st := by
  unfold unitsStep
  rw [h]

/-- C9 (amended): a set name X not among the store's known set names — with
the exception of the reserved name "unit", whose entries under spec.add are
always routed to the unit registry — is never read, checked or mutated: the
whole call is unchanged if every entry for X is erased from the spec; in
particular a required element listed under such an unknown set name causes
no validation failure. -/
theorem c9_unknown_name_ignored (scen : Scenario) (spec : Spec)
    (data : Option DataFn) (opts : Options) (X : String)
    (hX : X ∉ scen.set_list) (hu : X ≠ "unit") :
    applySpec scen spec data opts = applySpec scen (spec.dropName X) data opts := by
  unfold applySpec applyBody
  have hrs : runSets spec opts (prep scen opts).set_list ⟨prep scen opts, [], []⟩ =
      runSets (spec.dropName X) opts (prep scen opts).set_list
        ⟨prep scen opts, [], []⟩ := by
    apply runSets_congr
    intro n hn
    have hn' : n ∈ scen.set_list := by
      rw [← prep_set_list scen opts]
      exact hn
    have hnX : n ≠ X := fun hh => hX (hh ▸ hn')
    obtain ⟨e1, e2, e3⟩ := dropName_setOf_ne spec X n hnX
    exact ⟨e1.symm, e2.symm, e3.symm⟩
  rw [hrs]
  rcases hp : runSets (spec.dropName X) opts (prep scen opts).set_list
    ⟨prep scen opts, [], []⟩ with ⟨st, err⟩
  cases err with
  | some e => simp only [hp]
  | none =>
    simp only [hp]
    have hun : ("unit" : String) ≠ X := fun hh => hu hh.symm
    have hadd := (dropName_setOf_ne spec X "unit" hun).2.2
    rw [unitsStep_congr spec (spec.dropName X) opts _ hadd.symm]

/-- Counterexample to C9 as stated: "unit" is a set name not among the
store's known set names, yet entries under add."unit" are read and mutate
the platform's unit registry. -/
theorem c9_counterexample :
    ("unit" ∉ scenTech.set_list) ∧
      (applySpec scenTech specUnitStr none opts_plain).scen.units ≠
        scenTech.units := by
  decide

/-- Witness for C9 (amended): a required element under the unknown set name
"foo_set" is ignored — the call equals the call with that name erased. -/
theorem c9_witness :
    applySpec scenTech specUnknownReq none opts_plain =
      applySpec scenTech (specUnknownReq.dropName "foo_set") none opts_plain :=
  c9_unknown_name_ignored scenTech specUnknownReq none opts_plain "foo_set"
    (by decide) (by decide)

/-- C10 (confirmed): the required-element check compares spec entries
against the set snapshot by full value equality, not by effective
identifier — a required Code whose id equals a bare string present in the
set still fails — while the add step extracts the id from a Code before
appending, so the same Code under add appends its bare id. -/
theorem c10_require_vs_add_asymmetry (s nm : String) :
    (applySpec ⟨[("technology", [.str s])], [], [], false, false, []⟩
        ⟨⟨[("technology", [.code ⟨s, nm⟩])]⟩, ⟨[]⟩, ⟨[]⟩⟩ none opts_plain).err =
      some ApplyError.valueError ∧
    (applySpec ⟨[("technology", [.str s])], [], [], false, false, []⟩
        ⟨⟨[]⟩, ⟨[]⟩, ⟨[("technology", [.code ⟨s, nm⟩])]⟩⟩ none opts_plain).scen.getSet
        "technology" = [.str s, .str s] := by
  exact ⟨rfl, rfl⟩

end SpecApply
